import Mathlib

/-!
Shallow embedding of the `pewpew` firmware renderer (`src/main.rs`) and
verification of its specification.

The program is an RTIC application for an nRF52840 driving an ST7735 LCD.
Its timer handler `timer1` renders a 64×64 RGB565 plasma frame into a byte
buffer, blits it four times at fixed offsets, bumps a frame counter with
wrapping arithmetic, and re-arms the timer.

Modelling choices:
* The byte buffer `bytes : [u8; SCREEN_HEIGHT * SCREEN_WIDTH * 2]` is a
  `List ℕ` of length 8192 whose elements are byte values; `bytes[k] = v`
  becomes `List.set`.
* `u16` arithmetic is `ℕ` with explicit `% 65536`; `u32` wrapping is `% 2^32`.
* The `f32` pixel computation is modelled over `ℝ` with the exact cosine
  `Real.cos`; the Rust saturating float-to-integer cast `as u16` becomes
  `asU16`.  All numeric facts proved below have margins that are orders of
  magnitude wider than the rounding error of any faithful `cosf`.
* The per-pixel packed word is kept abstract (a parameter
  `w : ℕ → ℕ → ℕ → ℕ`) in the buffer-layout definitions, and instantiated
  with the concrete real-model word `wordR` where a claim needs the values.
* The externally visible actions of the handler (acknowledge, set-offset,
  draw, re-arm) are recorded as a trace of `Event`s in source order.
-/

namespace PewPew

/-- `SCREEN_WIDTH` from `src/main.rs`. -/
def SCREEN_WIDTH : ℕ := 64

/-- `SCREEN_HEIGHT` from `src/main.rs`. -/
def SCREEN_HEIGHT : ℕ := 64

/-- Length of the pixel buffer `bytes : [u8; SCREEN_HEIGHT * SCREEN_WIDTH * 2]`. -/
def bytesLen : ℕ := SCREEN_HEIGHT * SCREEN_WIDTH * 2

/-- Base byte index `(i * SCREEN_HEIGHT + j) * 2` used by the stores in the
render loop of `timer1`. -/
def pixelIdx (i j : ℕ) : ℕ := (i * SCREEN_HEIGHT + j) * 2

/-- The packed word `let x = (b5 << 11) + (g6 << 5) + r5;` computed in `u16`
arithmetic (shifts and sums reduced modulo `2^16`). -/
def pack (b5v g6v r5v : ℕ) : ℕ :=
  ((b5v <<< 11) % 65536 + (g6v <<< 5) % 65536 + r5v % 65536) % 65536

/-- `u16::to_le_bytes`: the little-endian byte pair of a 16-bit word.  In the
source, `let [hi, low] = x.to_le_bytes();` binds `hi` to the first
(least-significant) byte and `low` to the second, despite the names. -/
def toLeBytes (x : ℕ) : ℕ × ℕ := (x % 256, x / 256 % 256)

/-- One iteration of the inner render loop body: store the two bytes of the
packed word for pixel `(i, j)` at `pixelIdx i j + 0` and `pixelIdx i j + 1`.
The word is supplied by the abstract per-pixel function `w`. -/
def writePixel (w : ℕ → ℕ → ℕ → ℕ) (t i j : ℕ) (buf : List ℕ) : List ℕ :=
  (buf.set (pixelIdx i j + 0) (toLeBytes (w t i j)).1).set
    (pixelIdx i j + 1) (toLeBytes (w t i j)).2

/-- The inner loop `for j in 0..SCREEN_WIDTH` at row `i`. -/
def renderRow (w : ℕ → ℕ → ℕ → ℕ) (t i : ℕ) (buf : List ℕ) : List ℕ :=
  (List.range SCREEN_WIDTH).foldl (fun b j => writePixel w t i j b) buf

/-- The outer loop `for i in 0..SCREEN_HEIGHT`: the whole frame render of
`timer1` into the byte buffer. -/
def renderBytes (w : ℕ → ℕ → ℕ → ℕ) (t : ℕ) (buf : List ℕ) : List ℕ :=
  (List.range SCREEN_HEIGHT).foldl (fun b i => renderRow w t i b) buf

/-- The initial buffer `bytes: [0; SCREEN_HEIGHT * SCREEN_WIDTH * 2]` built in
`init`. -/
def initBytes : List ℕ := List.replicate bytesLen 0

/-- `u32` wrapping increment `*t = t.wrapping_add(1);`. -/
def wrapAdd1 (t : ℕ) : ℕ := (t + 1) % 4294967296

/-- The `#[local]` resources of the handler that evolve between invocations:
the pixel buffer and the frame counter `t`. -/
structure HState where
  bytes : List ℕ
  t : ℕ

/-- State evolution of one `timer1` invocation: render the frame for the
current counter into the buffer in place, then bump the counter with
wrapping arithmetic. -/
def timer1Handler (w : ℕ → ℕ → ℕ → ℕ) (s : HState) : HState :=
  ⟨renderBytes w s.t s.bytes, wrapAdd1 s.t⟩

/-- Externally visible actions performed by `timer1`, in source order. -/
inductive Event where
  | ackCompare (ch : ℕ)
  | render
  | setOffset (x y : ℕ)
  | draw
  | fireAt (ch ticks : ℕ)
deriving DecidableEq

/-- The action trace of one `timer1` invocation, in the order the source
performs them: acknowledge compare channel 1, render the frame, four
set-offset/draw pairs, re-arm channel 1 at 1000 ticks. -/
def timer1Trace (_t : ℕ) : List Event :=
  [Event.ackCompare 1, Event.render,
   Event.setOffset 0 0, Event.draw,
   Event.setOffset 67 0, Event.draw,
   Event.setOffset 0 66, Event.draw,
   Event.setOffset 67 66, Event.draw,
   Event.fireAt 1 1000]

/-- The offsets at which `draw` is issued in a trace, tracking the display
offset set by the most recent `setOffset` (the display starts at offset
`(0, 0)` after `init`). -/
def drawOffsets : List Event → ℕ × ℕ → List (ℕ × ℕ)
  | [], _ => []
  | Event.setOffset x y :: rest, _ => drawOffsets rest (x, y)
  | Event.draw :: rest, off => off :: drawOffsets rest off
  | _ :: rest, off => drawOffsets rest off

/-- Predicate for re-arm events, used to state that the only `fire_at` in the
handler is the final one with the fixed 1000-tick interval. -/
def isFireAt : Event → Bool
  | Event.fireAt _ _ => true
  | _ => false

/-! ### Real-number model of the per-pixel `f32` computation -/

/-- `let x = i as f32 / SCREEN_HEIGHT as f32;`. -/
noncomputable def xcoord (i : ℕ) : ℝ := (i : ℝ) / (SCREEN_HEIGHT : ℝ)

/-- `let y = j as f32 / SCREEN_WIDTH as f32;`. -/
noncomputable def ycoord (j : ℕ) : ℝ := (j : ℝ) / (SCREEN_WIDTH : ℝ)

/-- `let r = 0.5 + 0.5 * (*t as f32 + x + 0.0).cos();`. -/
noncomputable def rChan (t i : ℕ) : ℝ :=
  0.5 + 0.5 * Real.cos ((t : ℝ) + xcoord i + 0.0)

/-- `let g = 0.5 + 0.5 * (*t as f32 + y + 2.0).cos();`. -/
noncomputable def gChan (t j : ℕ) : ℝ :=
  0.5 + 0.5 * Real.cos ((t : ℝ) + ycoord j + 2.0)

/-- `let b = 0.5 + 0.5 * (*t as f32 + x + 4.0).cos();`. -/
noncomputable def bChan (t i : ℕ) : ℝ :=
  0.5 + 0.5 * Real.cos ((t : ℝ) + xcoord i + 4.0)

/-- Rust saturating float-to-`u16` cast: truncate toward zero, clamping to
`[0, 65535]`. -/
noncomputable def asU16 (v : ℝ) : ℕ := min 65535 (Int.toNat ⌊v⌋)

/-- `let r5 = (r * 31.0) as u16;`. -/
noncomputable def r5 (t i : ℕ) : ℕ := asU16 (rChan t i * 31.0)

/-- `let g6 = (g * 63.0) as u16;`. -/
noncomputable def g6 (t j : ℕ) : ℕ := asU16 (gChan t j * 63.0)

/-- `let b5 = (b * 31.0) as u16;`. -/
noncomputable def b5 (t i : ℕ) : ℕ := asU16 (bChan t i * 31.0)

/-- The concrete packed word of pixel `(i, j)` at frame `t` in the real-number
model: instantiates the abstract per-pixel word of the layout definitions. -/
noncomputable def wordR (t i j : ℕ) : ℕ := pack (b5 t i) (g6 t j) (r5 t i)

/-! ### Helper lemmas: buffer layout of the render loop -/

lemma length_writePixel (w : ℕ → ℕ → ℕ → ℕ) (t i j : ℕ) (buf : List ℕ) :
    (writePixel w t i j buf).length = buf.length := by
  simp [writePixel]

lemma length_foldl {α : Type} (step : List ℕ → α → List ℕ)
    (h : ∀ b a, (step b a).length = b.length) :
    ∀ (l : List α) (buf : List ℕ), (l.foldl step buf).length = buf.length := by
  intro l
  induction l with
  | nil => intro buf; rfl
  | cons a l ih => intro buf; rw [List.foldl_cons, ih, h]

lemma length_renderRow (w : ℕ → ℕ → ℕ → ℕ) (t i : ℕ) (buf : List ℕ) :
    (renderRow w t i buf).length = buf.length :=
  length_foldl _ (fun b j => length_writePixel w t i j b) _ buf

lemma length_renderBytes (w : ℕ → ℕ → ℕ → ℕ) (t : ℕ) (buf : List ℕ) :
    (renderBytes w t buf).length = buf.length :=
  length_foldl _ (fun b i => length_renderRow w t i b) _ buf

lemma row_foldl_untouched (w : ℕ → ℕ → ℕ → ℕ) (t i p : ℕ) :
    ∀ (l : List ℕ) (buf : List ℕ),
      (∀ j ∈ l, pixelIdx i j ≠ p ∧ pixelIdx i j + 1 ≠ p) →
      (l.foldl (fun b j => writePixel w t i j b) buf)[p]? = buf[p]? := by
  intro l
  induction l with
  | nil => intro buf _; rfl
  | cons a l ih =>
    intro buf h
    rw [List.foldl_cons, ih _ (fun j hj => h j (List.mem_cons_of_mem _ hj))]
    have ha := h a (List.mem_cons_self _ _)
    simp [writePixel, List.getElem?_set_ne ha.1, List.getElem?_set_ne ha.2]

lemma row_foldl_read (w : ℕ → ℕ → ℕ → ℕ) (t i j : ℕ) :
    ∀ (l : List ℕ) (buf : List ℕ), l.Nodup → j ∈ l →
      pixelIdx i j + 1 < buf.length →
      (l.foldl (fun b j' => writePixel w t i j' b) buf)[pixelIdx i j]? =
          some (toLeBytes (w t i j)).1 ∧
        (l.foldl (fun b j' => writePixel w t i j' b) buf)[pixelIdx i j + 1]? =
          some (toLeBytes (w t i j)).2 := by
  intro l
  induction l with
  | nil => intro buf _ hj _; exact absurd hj (List.not_mem_nil j)
  | cons a l ih =>
    intro buf hnd hj hlen
    rcases List.mem_cons.mp hj with hj | hj
    · subst hj
      have hnotin : j ∉ l := (List.nodup_cons.mp hnd).1
      have huntouch : ∀ p, (pixelIdx i j ≤ p) → (p ≤ pixelIdx i j + 1) →
          ∀ j' ∈ l, pixelIdx i j' ≠ p ∧ pixelIdx i j' + 1 ≠ p := by
        intro p hp1 hp2 j' hj'
        have hne : j' ≠ j := fun hcon => hnotin (hcon ▸ hj')
        simp only [pixelIdx] at hp1 hp2 ⊢
        omega
      rw [List.foldl_cons]
      constructor
      · rw [row_foldl_untouched w t i _ l _
          (huntouch _ (Nat.le_refl _) (Nat.le_succ _))]
        have h0 : pixelIdx i j < buf.length := Nat.lt_of_succ_lt hlen
        simp [writePixel, List.getElem?_set_ne (Nat.succ_ne_self _),
          List.getElem?_set_self h0]
      · rw [row_foldl_untouched w t i _ l _
          (huntouch _ (Nat.le_succ _) (Nat.le_refl _))]
        simp only [writePixel]
        exact List.getElem?_set_self (by simpa using hlen)
    · have hlen2 : pixelIdx i j + 1 < (writePixel w t i a buf).length := by
        rw [length_writePixel]; exact hlen
      rw [List.foldl_cons]
      exact ih _ (List.nodup_cons.mp hnd).2 hj hlen2

lemma rows_foldl_untouched (w : ℕ → ℕ → ℕ → ℕ) (t p : ℕ) :
    ∀ (l : List ℕ) (buf : List ℕ),
      (∀ i ∈ l, ∀ j < SCREEN_WIDTH, pixelIdx i j ≠ p ∧ pixelIdx i j + 1 ≠ p) →
      (l.foldl (fun b i => renderRow w t i b) buf)[p]? = buf[p]? := by
  intro l
  induction l with
  | nil => intro buf _; rfl
  | cons a l ih =>
    intro buf h
    rw [List.foldl_cons, ih _ (fun i hi => h i (List.mem_cons_of_mem _ hi))]
    exact row_foldl_untouched w t a p _ buf
      (fun j hj => h a (List.mem_cons_self _ _) j (List.mem_range.mp hj))

lemma rows_foldl_read (w : ℕ → ℕ → ℕ → ℕ) (t i j : ℕ) (hj : j < SCREEN_WIDTH) :
    ∀ (l : List ℕ) (buf : List ℕ), l.Nodup → i ∈ l →
      pixelIdx i j + 1 < buf.length →
      (l.foldl (fun b i' => renderRow w t i' b) buf)[pixelIdx i j]? =
          some (toLeBytes (w t i j)).1 ∧
        (l.foldl (fun b i' => renderRow w t i' b) buf)[pixelIdx i j + 1]? =
          some (toLeBytes (w t i j)).2 := by
  intro l
  induction l with
  | nil => intro buf _ hi _; exact absurd hi (List.not_mem_nil i)
  | cons a l ih =>
    intro buf hnd hi hlen
    rcases List.mem_cons.mp hi with hi | hi
    · subst hi
      have hnotin : i ∉ l := (List.nodup_cons.mp hnd).1
      have huntouch : ∀ p, (pixelIdx i j ≤ p) → (p ≤ pixelIdx i j + 1) →
          ∀ i' ∈ l, ∀ j' < SCREEN_WIDTH,
            pixelIdx i' j' ≠ p ∧ pixelIdx i' j' + 1 ≠ p := by
        intro p hp1 hp2 i' hi' j' hj'
        have hne : i' ≠ i := fun hcon => hnotin (hcon ▸ hi')
        simp only [pixelIdx, SCREEN_WIDTH, SCREEN_HEIGHT] at hp1 hp2 hj hj' ⊢
        constructor <;> intro hcon <;> omega
      have hbase := row_foldl_read w t i j (List.range SCREEN_WIDTH) buf
        (List.nodup_range _) (List.mem_range.mpr hj) hlen
      rw [List.foldl_cons]
      constructor
      · rw [rows_foldl_untouched w t _ l _
          (huntouch _ (Nat.le_refl _) (Nat.le_succ _))]
        exact hbase.1
      · rw [rows_foldl_untouched w t _ l _
          (huntouch _ (Nat.le_succ _) (Nat.le_refl _))]
        exact hbase.2
    · have hlen2 : pixelIdx i j + 1 < (renderRow w t a buf).length := by
        rw [length_renderRow]; exact hlen
      rw [List.foldl_cons]
      exact ih _ (List.nodup_cons.mp hnd).2 hi hlen2

/-- Main read lemma: after a full frame render, the buffer holds, at the two
byte offsets of pixel `(i, j)`, exactly the little-endian byte pair of the
per-pixel word. -/
lemma renderBytes_read (w : ℕ → ℕ → ℕ → ℕ) (t i j : ℕ) (buf : List ℕ)
    (hi : i < SCREEN_HEIGHT) (hj : j < SCREEN_WIDTH)
    (hlen : buf.length = bytesLen) :
    (renderBytes w t buf)[pixelIdx i j]? = some (w t i j % 256) ∧
      (renderBytes w t buf)[pixelIdx i j + 1]? = some (w t i j / 256 % 256) := by
  have hplen : pixelIdx i j + 1 < buf.length := by
    rw [hlen]
    simp only [pixelIdx, bytesLen, SCREEN_WIDTH, SCREEN_HEIGHT] at hi hj ⊢
    omega
  exact rows_foldl_read w t i j hj (List.range SCREEN_HEIGHT) buf
    (List.nodup_range _) (List.mem_range.mpr hi) hplen

/-! ### Helper lemma: adding into disjoint low bits is bitwise or -/

lemma shiftLeft_lor_eq_add :
    ∀ (n a b : ℕ), a < 2 ^ n → b <<< n ||| a = b <<< n + a := by
  intro n
  induction n with
  | zero =>
    intro a b ha
    interval_cases a
    simp
  | succ n ih =>
    intro a b ha
    have h2 : 2 ^ (n + 1) = 2 * 2 ^ n := by rw [pow_succ]; ring
    have ha2 : a >>> 1 < 2 ^ n := by
      rw [Nat.shiftRight_one]
      omega
    have hb : b <<< (n + 1) = Nat.bit false (b <<< n) := by
      simp only [Nat.shiftLeft_eq, Nat.bit_val, Bool.toNat_false, h2]
      ring
    have hd : (decide (a % 2 = 1)).toNat = a % 2 := by
      rcases Nat.mod_two_eq_zero_or_one a with h | h <;> simp [h]
    calc b <<< (n + 1) ||| a
        = Nat.bit false (b <<< n) |||
            Nat.bit (decide (a % 2 = 1)) (a >>> 1) := by
          rw [hb, Nat.bit_decide_mod_two_eq_one_shiftRight_one]
      _ = Nat.bit (false || decide (a % 2 = 1)) (b <<< n ||| a >>> 1) :=
          Nat.lor_bit false (b <<< n) (decide (a % 2 = 1)) (a >>> 1)
      _ = Nat.bit (decide (a % 2 = 1)) (b <<< n + a >>> 1) := by
          rw [Bool.false_or, ih _ b ha2]
      _ = b <<< (n + 1) + a := by
          rw [Nat.bit_val, hb, Nat.bit_val, hd, Nat.shiftRight_one]
          simp only [Bool.toNat_false]
          omega

/-! ### C1: blit offsets -/

/-- C1 (counterexample): the four blits of one `timer1` invocation do not
target `(0,0)`, `(67,0)`, `(0,67)`, `(67,67)`: the third draw happens at
offset `(0, 66)`, not `(0, 67)`. -/
theorem c1_offsets_asymmetric :
    drawOffsets (timer1Trace 0) (0, 0) ≠
        [(0, 0), (67, 0), (0, 67), (67, 67)] ∧
      (0, 67) ∉ drawOffsets (timer1Trace 0) (0, 0) ∧
      (0, 66) ∈ drawOffsets (timer1Trace 0) (0, 0) := by
  decide

/-- C1 (amended): every invocation of the timer handler issues exactly four
blits, at the offsets `(0,0)`, `(67,0)`, `(0,66)`, `(67,66)`: the x offset is
`tile_width + 3 = 67` but the y offset is `tile_height + 2 = 66`. -/
theorem c1_four_blit_offsets (t : ℕ) :
    drawOffsets (timer1Trace t) (0, 0) =
        [(0, 0), (67, 0), (0, 66), (67, 66)] ∧
      (drawOffsets (timer1Trace t) (0, 0)).length = 4 :=
  ⟨rfl, rfl⟩

/-! ### C4: little-endian store at the right offset -/

/-- C4: for every pixel `(i, j)` the packed word is stored little-endian
(least-significant byte first) at byte offset `2 * (i * SCREEN_HEIGHT + j)`:
after the frame render those two buffer bytes are exactly the little-endian
byte pair of the pixel's word. -/
theorem c4_little_endian_store (w : ℕ → ℕ → ℕ → ℕ) (t i j : ℕ)
    (buf : List ℕ) (hi : i < SCREEN_HEIGHT) (hj : j < SCREEN_WIDTH)
    (hlen : buf.length = bytesLen) :
    (renderBytes w t buf)[2 * (i * SCREEN_HEIGHT + j)]? =
        some (toLeBytes (w t i j)).1 ∧
      (renderBytes w t buf)[2 * (i * SCREEN_HEIGHT + j) + 1]? =
        some (toLeBytes (w t i j)).2 := by
  have hpi : 2 * (i * SCREEN_HEIGHT + j) = pixelIdx i j := by
    rw [pixelIdx, Nat.mul_comm]
  rw [hpi]
  exact renderBytes_read w t i j buf hi hj hlen

/-- Witness for C4 at `w = fun _ _ _ => 513`, `t = 0`, `i = 1`, `j = 2`,
starting from the zeroed buffer built in `init`. -/
theorem c4_little_endian_store_witness :
    1 < SCREEN_HEIGHT ∧ 2 < SCREEN_WIDTH ∧ initBytes.length = bytesLen ∧
      ((renderBytes (fun _ _ _ => 513) 0 initBytes)[2 * (1 * SCREEN_HEIGHT + 2)]? =
          some (toLeBytes 513).1 ∧
        (renderBytes (fun _ _ _ => 513) 0 initBytes)[2 * (1 * SCREEN_HEIGHT + 2) + 1]? =
          some (toLeBytes 513).2) :=
  ⟨by decide, by decide, by simp [initBytes],
    c4_little_endian_store (fun _ _ _ => 513) 0 1 2 initBytes
      (by decide) (by decide) (by simp [initBytes])⟩

/-! ### C5: additive packing coincides with bitwise-or packing -/

/-- C5: whenever the quantized channels fit their bit widths
(`r5 ≤ 31`, `g6 ≤ 63`, `b5 ≤ 31`), the word the code computes by adding
shifted fields equals the bitwise-or packing `(b5 << 11) | (g6 << 5) | r5`. -/
theorem c5_pack_eq_lor (b5v g6v r5v : ℕ)
    (hb : b5v ≤ 31) (hg : g6v ≤ 63) (hr : r5v ≤ 31) :
    pack b5v g6v r5v = b5v <<< 11 ||| g6v <<< 5 ||| r5v := by
  have e5 : (2 : ℕ) ^ 5 = 32 := by norm_num
  have e11 : (2 : ℕ) ^ 11 = 2048 := by norm_num
  have h1 : g6v <<< 5 ||| r5v = g6v <<< 5 + r5v :=
    shiftLeft_lor_eq_add 5 r5v g6v (by rw [e5]; omega)
  have h2 : b5v <<< 11 ||| (g6v <<< 5 + r5v) = b5v <<< 11 + (g6v <<< 5 + r5v) :=
    shiftLeft_lor_eq_add 11 _ b5v
      (by rw [e11, Nat.shiftLeft_eq, e5]; omega)
  rw [Nat.lor_assoc, h1, h2]
  simp only [pack, Nat.shiftLeft_eq, e5, e11]
  omega

/-- Witness for C5 at the extreme channel values `b5 = 31`, `g6 = 63`,
`r5 = 31`. -/
theorem c5_pack_eq_lor_witness :
    31 ≤ 31 ∧ 63 ≤ 63 ∧
      pack 31 63 31 = 31 <<< 11 ||| 63 <<< 5 ||| 31 :=
  ⟨by decide, by decide,
    c5_pack_eq_lor 31 63 31 (by decide) (by decide) (by decide)⟩

/-! ### C6: frame counter increment and wrap -/

/-- C6: after each handler invocation the frame counter is incremented by
exactly one, and at the maximum representable `u32` value it wraps to `0`
(the handler's counter update is total: no panic path exists). -/
theorem c6_counter_wrapping (w : ℕ → ℕ → ℕ → ℕ) (s : HState)
    (hlt : s.t < 4294967296) :
    (s.t + 1 < 4294967296 → (timer1Handler w s).t = s.t + 1) ∧
      (s.t = 4294967295 → (timer1Handler w s).t = 0) := by
  simp only [timer1Handler, wrapAdd1]
  omega

/-- Witness for C6 at the maximum counter value `t = 2^32 - 1`. -/
theorem c6_counter_wrapping_witness :
    (4294967295 : ℕ) < 4294967296 ∧
      ((4294967295 + 1 < 4294967296 →
          (timer1Handler (fun _ _ _ => 0) ⟨[], 4294967295⟩).t = 4294967295 + 1) ∧
        (4294967295 = 4294967295 →
          (timer1Handler (fun _ _ _ => 0) ⟨[], 4294967295⟩).t = 0)) :=
  ⟨by decide, c6_counter_wrapping (fun _ _ _ => 0) ⟨[], 4294967295⟩ (by decide)⟩

/-! ### C7: acknowledge first, fixed re-arm last -/

/-- C7: in every invocation of `timer1`, acknowledging compare channel 1 is
the first action (before the render and the blits), the re-arm is the last
action, the only re-arm uses the fixed 1000-tick interval, and the trace does
not depend on the frame counter (hence not on how long rendering takes). -/
theorem c7_ack_first_rearm_last (t : ℕ) :
    (timer1Trace t).head? = some (Event.ackCompare 1) ∧
      (timer1Trace t).getLast? = some (Event.fireAt 1 1000) ∧
      (timer1Trace t).filter isFireAt = [Event.fireAt 1 1000] ∧
      timer1Trace t = timer1Trace 0 :=
  ⟨rfl, rfl, rfl, rfl⟩

/-! ### C8: buffer length invariant -/

/-- C8: the pixel buffer starts at exactly `2 * W * H = 8192` bytes and keeps
that length across any number of handler invocations: every frame is written
in place and nothing reallocates or resizes the buffer. -/
theorem c8_buffer_length_invariant (w : ℕ → ℕ → ℕ → ℕ) (n : ℕ) (s : HState)
    (h : s.bytes.length = bytesLen) :
    initBytes.length = bytesLen ∧
      ((timer1Handler w)^[n] s).bytes.length = bytesLen := by
  refine ⟨by simp [initBytes], ?_⟩
  induction n generalizing s with
  | zero => exact h
  | succ n ih =>
    rw [Function.iterate_succ_apply]
    exact ih _ (by simp [timer1Handler, length_renderBytes, h])

/-- Witness for C8: two invocations starting from the `init` state. -/
theorem c8_buffer_length_invariant_witness :
    initBytes.length = bytesLen ∧
      (initBytes.length = bytesLen ∧
        ((timer1Handler (fun _ _ _ => 0))^[2] ⟨initBytes, 0⟩).bytes.length =
          bytesLen) :=
  ⟨by simp [initBytes],
    c8_buffer_length_invariant (fun _ _ _ => 0) 2 ⟨initBytes, 0⟩
      (by simp [initBytes])⟩

/-! ### C9: the rendered bytes are a pure function of (t, i, j) -/

/-- C9: the rendered output is deterministic and reproducible: at every
buffer position, the byte produced by a frame render depends only on the
per-pixel word function and the frame counter, never on the previous buffer
contents — two runs with the same `(t, i, j)` data give byte-identical
output. -/
theorem c9_render_deterministic (w : ℕ → ℕ → ℕ → ℕ) (t : ℕ)
    (buf1 buf2 : List ℕ) (p : ℕ)
    (h1 : buf1.length = bytesLen) (h2 : buf2.length = bytesLen)
    (hp : p < bytesLen) :
    (renderBytes w t buf1)[p]? = (renderBytes w t buf2)[p]? := by
  have hi : p / 128 < SCREEN_HEIGHT := by
    simp only [bytesLen, SCREEN_HEIGHT, SCREEN_WIDTH] at hp ⊢
    omega
  have hj : p % 128 / 2 < SCREEN_WIDTH := by
    simp only [SCREEN_WIDTH]
    omega
  have hsplit : p = pixelIdx (p / 128) (p % 128 / 2) ∨
      p = pixelIdx (p / 128) (p % 128 / 2) + 1 := by
    simp only [pixelIdx, SCREEN_HEIGHT]
    omega
  rcases hsplit with hs | hs <;> rw [hs]
  · rw [(renderBytes_read w t _ _ buf1 hi hj h1).1,
      (renderBytes_read w t _ _ buf2 hi hj h2).1]
  · rw [(renderBytes_read w t _ _ buf1 hi hj h1).2,
      (renderBytes_read w t _ _ buf2 hi hj h2).2]

/-- Witness for C9: position 0 with two different initial buffers. -/
theorem c9_render_deterministic_witness :
    initBytes.length = bytesLen ∧
      (List.replicate bytesLen 7).length = bytesLen ∧ 0 < bytesLen ∧
      (renderBytes (fun _ _ _ => 1) 0 initBytes)[0]? =
        (renderBytes (fun _ _ _ => 1) 0 (List.replicate bytesLen 7))[0]? :=
  ⟨by simp [initBytes], by simp, by decide,
    c9_render_deterministic (fun _ _ _ => 1) 0 initBytes
      (List.replicate bytesLen 7) 0 (by simp [initBytes]) (by simp)
      (by decide)⟩

/-! ### C10: all buffer writes are in bounds -/

/-- C10: for every `i < 64` and `j < 64` both byte indices written for pixel
`(i, j)` are strictly below the buffer length `8192`, so the render loop can
never take an out-of-bounds index panic. -/
theorem c10_writes_in_bounds (i j : ℕ)
    (hi : i < SCREEN_HEIGHT) (hj : j < SCREEN_WIDTH) :
    pixelIdx i j < bytesLen ∧ pixelIdx i j + 1 < bytesLen := by
  simp only [pixelIdx, bytesLen, SCREEN_HEIGHT, SCREEN_WIDTH] at hi hj ⊢
  omega

/-- Witness for C10 at the last pixel `(63, 63)`. -/
theorem c10_writes_in_bounds_witness :
    63 < SCREEN_HEIGHT ∧ 63 < SCREEN_WIDTH ∧
      (pixelIdx 63 63 < bytesLen ∧ pixelIdx 63 63 + 1 < bytesLen) :=
  ⟨by decide, by decide, c10_writes_in_bounds 63 63 (by decide) (by decide)⟩

/-! ### Helper lemmas: the saturating cast and numeric cosine bounds

The rational cosine intervals below are derived inside Lean from
`Real.cos_bound` (a Taylor estimate valid on `|x| ≤ 1`) and the double-angle
identity, starting at `x = 1/4` and doubling up to `4`.  Each interval is
three or more decimal orders of magnitude wider than the rounding error of a
faithful single-precision `cosf`, so every digit-level conclusion drawn from
them also holds for the compiled `f32` computation. -/

lemma asU16_le {v : ℝ} {m : ℕ} (h : v ≤ (m : ℝ)) : asU16 v ≤ m := by
  have h1 : ⌊v⌋ ≤ (m : ℤ) := by
    have h2 := Int.floor_le_floor h
    rwa [Int.floor_natCast] at h2
  exact le_trans (min_le_right _ _) (Int.toNat_le.mpr h1)

lemma asU16_eq {v : ℝ} {n : ℕ} (hn : n ≤ 65535)
    (h1 : (n : ℝ) ≤ v) (h2 : v < (n : ℝ) + 1) : asU16 v = n := by
  have hf : ⌊v⌋ = (n : ℤ) := by
    rw [Int.floor_eq_iff]
    constructor
    · push_cast
      exact h1
    · push_cast
      exact h2
  rw [asU16, hf]
  simp only [Int.toNat_natCast]
  exact min_eq_right hn

lemma half_cos_le_one (x : ℝ) : 0.5 + 0.5 * Real.cos x ≤ 1 := by
  nlinarith [Real.cos_le_one x]

lemma cos_quarter_bounds :
    (23803 : ℝ) / 24576 ≤ Real.cos (1 / 4) ∧
      Real.cos (1 / 4) ≤ 23813 / 24576 := by
  have ha : |(1 / 4 : ℝ)| = 1 / 4 := by
    rw [abs_of_nonneg]
    norm_num
  have h := Real.cos_bound (x := 1 / 4) (by rw [ha]; norm_num)
  rw [ha, abs_le] at h
  constructor <;> nlinarith [h.1, h.2]

lemma cos_half_bounds :
    (8761 : ℝ) / 10000 ≤ Real.cos (1 / 2) ∧
      Real.cos (1 / 2) ≤ 8778 / 10000 := by
  obtain ⟨h1, h2⟩ := cos_quarter_bounds
  have hc := Real.cos_two_mul (1 / 4)
  norm_num at hc
  rw [hc]
  constructor <;> nlinarith [h1, h2]

lemma cos_one_bounds :
    (5351 : ℝ) / 10000 ≤ Real.cos 1 ∧ Real.cos 1 ≤ 5411 / 10000 := by
  obtain ⟨h1, h2⟩ := cos_half_bounds
  have hc := Real.cos_two_mul (1 / 2)
  norm_num at hc
  rw [hc]
  constructor <;> nlinarith [h1, h2]

lemma cos_two_bounds :
    -(4274 : ℝ) / 10000 ≤ Real.cos 2 ∧ Real.cos 2 ≤ -(4144 : ℝ) / 10000 := by
  obtain ⟨h1, h2⟩ := cos_one_bounds
  have hc := Real.cos_two_mul 1
  norm_num at hc
  rw [hc]
  constructor <;> nlinarith [h1, h2]

lemma cos_four_bounds :
    -(6566 : ℝ) / 10000 ≤ Real.cos 4 ∧ Real.cos 4 ≤ -(6346 : ℝ) / 10000 := by
  obtain ⟨h1, h2⟩ := cos_two_bounds
  have hc := Real.cos_two_mul 2
  norm_num at hc
  rw [hc]
  constructor <;> nlinarith [h1, h2]

/-! ### Helper lemmas: the pixel (0, 0) of frame 0 -/

lemma rChan_zero : rChan 0 0 = 1 := by
  have h0 : ((0 : ℕ) : ℝ) + xcoord 0 + 0.0 = 0 := by
    simp [xcoord]
    norm_num
  rw [rChan, h0, Real.cos_zero]
  norm_num

lemma gChan_zero : gChan 0 0 = 0.5 + 0.5 * Real.cos 2 := by
  have h0 : ((0 : ℕ) : ℝ) + ycoord 0 + 2.0 = 2 := by
    simp [ycoord]
    norm_num
  rw [gChan, h0]

lemma bChan_zero : bChan 0 0 = 0.5 + 0.5 * Real.cos 4 := by
  have h0 : ((0 : ℕ) : ℝ) + xcoord 0 + 4.0 = 4 := by
    simp [xcoord]
    norm_num
  rw [bChan, h0]

lemma r5_zero : r5 0 0 = 31 := by
  rw [r5, rChan_zero]
  apply asU16_eq (by norm_num)
  · norm_num
  · norm_num

lemma g6_zero : g6 0 0 = 18 := by
  obtain ⟨h1, h2⟩ := cos_two_bounds
  rw [g6, gChan_zero]
  apply asU16_eq (by norm_num)
  · push_cast
    nlinarith [h1, h2]
  · push_cast
    nlinarith [h1, h2]

lemma b5_zero : b5 0 0 = 5 := by
  obtain ⟨h1, h2⟩ := cos_four_bounds
  rw [b5, bChan_zero]
  apply asU16_eq (by norm_num)
  · push_cast
    nlinarith [h1, h2]
  · push_cast
    nlinarith [h1, h2]

lemma wordR_zero : wordR 0 0 0 = 10847 := by
  rw [wordR, r5_zero, g6_zero, b5_zero]
  decide

/-! ### C2: the concrete pixel value at t = 0, i = 0, j = 0 -/

/-- C2 (counterexample): at `t = 0`, `i = 0`, `j = 0` the packed word is not
`447` and the byte stored at buffer offset 0 is not `0xBF`: the quantized
green channel is `18` (not `13`) and the blue channel is `5` (not `0`),
because `0.5 + 0.5·cos 2 ≈ 0.292` and `0.5 + 0.5·cos 4 ≈ 0.173`. -/
theorem c2_pixel_zero_not_447 :
    wordR 0 0 0 ≠ 447 ∧ g6 0 0 ≠ 13 ∧ b5 0 0 ≠ 0 := by
  rw [wordR_zero, g6_zero, b5_zero]
  decide

/-- C2 (amended): with `t = 0`, `i = 0`, `j = 0` the pixel computation
produces `r5 = 31`, `g6 = 18`, `b5 = 5`, hence the packed word
`(5 << 11) | (18 << 5) | 31 = 10847 = 0x2A5F`, stored as the bytes
`[0x5F, 0x2A]` at buffer offsets 0 and 1. -/
theorem c2_pixel_zero_value :
    r5 0 0 = 31 ∧ g6 0 0 = 18 ∧ b5 0 0 = 5 ∧ wordR 0 0 0 = 10847 ∧
      toLeBytes (wordR 0 0 0) = (95, 42) ∧
      (renderBytes wordR 0 initBytes)[0]? = some 95 ∧
      (renderBytes wordR 0 initBytes)[1]? = some 42 := by
  have hread := renderBytes_read wordR 0 0 0 initBytes
    (by decide) (by decide) (by simp [initBytes])
  have hp0 : pixelIdx 0 0 = 0 := by decide
  rw [hp0, wordR_zero] at hread
  norm_num at hread
  exact ⟨r5_zero, g6_zero, b5_zero, wordR_zero,
    by rw [wordR_zero]; decide, hread.1, hread.2⟩

/-! ### C3: quantized channels always fit their bit fields -/

/-- C3: for every frame counter `t` and pixel `(i, j)` in range, the
quantized channels satisfy `r5 ≤ 31`, `g6 ≤ 63` and `b5 ≤ 31` (as naturals
they are also `≥ 0`), including at boundary inputs where the cosine is
exactly `1.0` or `-1.0`, so the packed bit fields never overflow their
widths. -/
theorem c3_channel_ranges (t i j : ℕ)
    (_hi : i < SCREEN_HEIGHT) (_hj : j < SCREEN_WIDTH) :
    r5 t i ≤ 31 ∧ g6 t j ≤ 63 ∧ b5 t i ≤ 31 := by
  refine ⟨asU16_le ?_, asU16_le ?_, asU16_le ?_⟩
  · have h := half_cos_le_one ((t : ℝ) + xcoord i + 0.0)
    rw [rChan]
    push_cast
    nlinarith [h]
  · have h := half_cos_le_one ((t : ℝ) + ycoord j + 2.0)
    rw [gChan]
    push_cast
    nlinarith [h]
  · have h := half_cos_le_one ((t : ℝ) + xcoord i + 4.0)
    rw [bChan]
    push_cast
    nlinarith [h]

/-- Witness for C3 at `t = 0`, `i = 0`, `j = 0` (where the red cosine term is
exactly `1.0`). -/
theorem c3_channel_ranges_witness :
    0 < SCREEN_HEIGHT ∧ 0 < SCREEN_WIDTH ∧
      (r5 0 0 ≤ 31 ∧ g6 0 0 ≤ 63 ∧ b5 0 0 ≤ 31) :=
  ⟨by decide, by decide, c3_channel_ranges 0 0 0 (by decide) (by decide)⟩

end PewPew
